import Mathlib

/-!
Verification development for a Telegram-bot backend: a SQLite-backed
persistence layer (`src/database.py`) with a connection pool, usage
monitoring, a referral-count store and a user registry, plus a FastAPI
webhook dispatcher (`src/api/webhook.py`).

Shallow embedding conventions:
  * A keyed SQL table with a unique primary key is modelled as a finite
    map `Int → Option v` (user id to row payload).
  * The append-only `usage_stats` table is a `List UsageSample`.
  * A fallible storage primitive is parameterised by a `fault : Bool`
    flag: `fault = true` means the underlying sqlite3 call raises
    `sqlite3.Error`.  SQL statements are atomic: a failing statement
    leaves the table unchanged, a succeeding one applies in full.
  * Wall-clock time (`time.time()`) is an explicit `now : Int` argument.
-/

namespace BotDB

/-- Storage-level exception, standing for Python's `sqlite3.Error`
(and, where a handler catches `Exception`, any other runtime error). -/
inductive DBError where
  | sqliteError
  deriving DecidableEq, Repr

/-- The `referral_counts` table: `user_id INTEGER PRIMARY KEY,
ref_count INTEGER`, modelled as a finite map from user id to count. -/
def ReferralStore := Int → Option Int

/-- The fresh (empty) `referral_counts` table of a newly created database. -/
def freshStore : ReferralStore := fun _ => none

/-- The SQL statement of `increment_referral_count`:
`INSERT INTO referral_counts (user_id, ref_count) VALUES (?, 1)
 ON CONFLICT(user_id) DO UPDATE SET ref_count = ref_count + 1`.
No conflicting row: insert `(uid, 1)`; conflicting row with count `c`:
update it to `c + 1`.  The statement is a single atomic upsert. -/
def upsertReferral (s : ReferralStore) (uid : Int) : ReferralStore :=
  match s uid with
  | none => fun u => if u = uid then some 1 else s u
  | some c => fun u => if u = uid then some (c + 1) else s u

/-- Python `increment_referral_count(referrer_id) -> bool`
(src/database.py:201-216).  The body executes the upsert and commits
inside `with db._lock`, returning `True`; `except sqlite3.Error`
returns `False`.  A failing statement has no effect on the table. -/
def increment_referral_count (fault : Bool) (s : ReferralStore) (referrer_id : Int) :
    Bool × ReferralStore :=
  if fault then (false, s)
  else (true, upsertReferral s referrer_id)

/-- The `SELECT ref_count FROM referral_counts WHERE user_id = ?`
point read followed by `fetchone()`: raises on a storage fault,
otherwise yields the row (or `none` when absent). -/
def selectRefCount (fault : Bool) (s : ReferralStore) (uid : Int) :
    Except DBError (Option Int) :=
  if fault then .error .sqliteError else .ok (s uid)

/-- Python `get_referral_count(user_id) -> int` (src/database.py:218-227):
runs the point read and returns `result[0] if result else 0`.
The function has NO try/except, so a storage error propagates
to the caller as an exception. -/
def get_referral_count (fault : Bool) (s : ReferralStore) (user_id : Int) :
    Except DBError Int :=
  match selectRefCount fault s user_id with
  | .error e => .error e
  | .ok r => .ok (match r with | some c => c | none => 0)

/-- One row of the `usage_stats` table:
`(timestamp INTEGER, concurrent_connections INTEGER, max_concurrent INTEGER)`
(the AUTOINCREMENT id column is the list position). -/
structure UsageSample where
  timestamp : Int
  concurrent_connections : Int
  max_concurrent : Int
  deriving DecidableEq, Repr

/-- The mutable state of a `ReferralDB` instance together with its
backing database: the pool counters, the flag standing for presence of
the `_tables_created` attribute on the instance, and the stored tables. -/
structure DBState where
  active_connections : Int
  max_concurrent : Int
  tables_created : Bool
  usage_stats : List UsageSample
  deriving DecidableEq, Repr

/-- The state produced by `ReferralDB.__init__` (src/database.py:47-55):
`active_connections = 0`, `max_concurrent = 0`, empty `usage_stats`
(`_create_tables_initial` creates empty tables).  No statement in
src/database.py ever assigns the `_tables_created` attribute, so
`hasattr(self, '_tables_created')` is false on the fresh instance. -/
def initState : DBState :=
  { active_connections := 0
  , max_concurrent := 0
  , tables_created := false
  , usage_stats := [] }

/-- Python `ReferralDB._log_usage` (src/database.py:107-119): appends an
`INSERT INTO usage_stats` row with the current time, the current
`active_connections`, and the current `max_concurrent`. -/
def log_usage (now : Int) (s : DBState) : DBState :=
  { s with usage_stats :=
      s.usage_stats ++ [⟨now, s.active_connections, s.max_concurrent⟩] }

/-- Entry of Python `ReferralDB.get_connection` (src/database.py:83-91):
under `self._lock`, increments `active_connections`, updates
`max_concurrent` to the maximum of itself and the new
`active_connections`, and calls `_log_usage()` only when
`hasattr(self, '_tables_created')` holds. -/
def acquire (now : Int) (s : DBState) : DBState :=
  let s1 := { s with active_connections := s.active_connections + 1 }
  let s2 := { s1 with
      max_concurrent := max s1.max_concurrent s1.active_connections }
  if s2.tables_created then log_usage now s2 else s2

/-- Exit of Python `ReferralDB.get_connection` (src/database.py:94-98):
the `finally` block returns the connection and, under `self._lock`,
decrements `active_connections`. -/
def release (s : DBState) : DBState :=
  { s with active_connections := s.active_connections - 1 }

/-- A pool event within one process lifetime: an entry into
`get_connection` (with its wall-clock time) or the matching exit. -/
inductive PoolOp where
  | acq (now : Int)
  | rel
  deriving DecidableEq, Repr

/-- Apply one pool event to the database state. -/
def poolStep (s : DBState) : PoolOp → DBState
  | .acq now => acquire now s
  | .rel => release s

/-- Run a sequence of pool events from a state. -/
def runPool (s : DBState) : List PoolOp → DBState
  | [] => s
  | op :: ops => runPool (poolStep s op) ops

/-- In the source, `release` only ever happens in the `finally` of a
`get_connection` whose entry already ran, so along any real event
sequence every release is matched by an earlier acquire.  `balancedAux
bal ops` checks this, `bal` being the number of currently outstanding
acquires. -/
def balancedAux (bal : Nat) : List PoolOp → Bool
  | [] => true
  | .acq _ :: ops => balancedAux (bal + 1) ops
  | .rel :: ops => decide (0 < bal) && balancedAux (bal - 1) ops

/-- A pool-event trace realisable by nested `get_connection` blocks:
no prefix has more releases than acquires. -/
def wellFormed (ops : List PoolOp) : Prop := balancedAux 0 ops = true

instance (ops : List PoolOp) : Decidable (wellFormed ops) := by
  unfold wellFormed; infer_instance

/-- Python `cleanup_old_stats()` (src/database.py:193-199): executes
`DELETE FROM usage_stats WHERE timestamp < ?` with `day_ago =
int(time.time()) - 86400`, so it retains exactly the rows whose
timestamp is not below `now - 86400`. -/
def cleanup_old_stats (now : Int) (stats : List UsageSample) : List UsageSample :=
  stats.filter (fun u => !decide (u.timestamp < now - 86400))

/-- The dictionary returned by Python `get_usage_stats`.  The average is
modelled as an exact rational; SQLite computes it in floating point,
whose rounding is not modelled. -/
structure UsageStatsResult where
  current_connections : Int
  peak_last_hour : ℚ
  avg_last_hour : ℚ
  all_time_max : ℚ
  deriving DecidableEq, Repr

/-- The all-zero dictionary built by both exception handlers of
`get_usage_stats`. -/
def zeroedStats : UsageStatsResult :=
  { current_connections := 0
  , peak_last_hour := 0
  , avg_last_hour := 0
  , all_time_max := 0 }

/-- SQL aggregate `MAX` over a column: `NULL` on an empty set,
otherwise the maximum. -/
def sqlMaxCol : List Int → Option Int
  | [] => none
  | x :: xs => some (xs.foldl max x)

/-- SQL aggregate `AVG` over a column: `NULL` on an empty set,
otherwise the arithmetic mean. -/
def sqlAvgCol (l : List Int) : Option ℚ :=
  match l with
  | [] => none
  | _ => some ((l.map (fun x : Int => (x : ℚ))).sum / l.length)

/-- Round to two decimal places, standing for Python
`round(float(x), 2)` (half rounded up rather than float banker's
rounding; the claims do not depend on the tie-breaking rule). -/
def round2 (q : ℚ) : ℚ := (⌊q * 100 + 1 / 2⌋ : ℚ) / 100

/-- Python `result[i] if result and result[i] is not None else 0` for
an integer aggregate column. -/
def qMaxOrZero (o : Option Int) : ℚ :=
  match o with
  | some m => (m : ℚ)
  | none => 0

/-- Python `result[i] if result and result[i] is not None else 0` for
the rational average column. -/
def qOrZero (o : Option ℚ) : ℚ :=
  match o with
  | some q => q
  | none => 0

/-- The rows selected by the aggregate query of `get_usage_stats`:
`WHERE timestamp > now - 3600` with `hour_ago = int(time.time()) - 3600`. -/
def statsWindow (now : Int) (s : DBState) : List UsageSample :=
  s.usage_stats.filter (fun u => decide (now - 3600 < u.timestamp))

/-- Python `get_usage_stats()` (src/database.py:147-191).
`connFault` stands for an exception while obtaining the connection
(outer `except Exception`), `queryFault` for a `sqlite3.Error` from the
aggregate query (inner `except sqlite3.Error`); both handlers return
the all-zero dictionary.  On success the query aggregates
`MAX(concurrent_connections)`, `AVG(concurrent_connections)` and
`MAX(max_concurrent)` over rows with `timestamp > now - 3600`, and
each `NULL` aggregate is replaced by 0. -/
def get_usage_stats (connFault queryFault : Bool) (now : Int) (s : DBState) :
    UsageStatsResult :=
  if connFault then zeroedStats
  else if queryFault then zeroedStats
  else
    let window := statsWindow now s
    { current_connections := s.active_connections
    , peak_last_hour :=
        qMaxOrZero (sqlMaxCol (window.map (fun u => u.concurrent_connections)))
    , avg_last_hour :=
        round2 (qOrZero (sqlAvgCol (window.map
          (fun u => u.concurrent_connections))))
    , all_time_max :=
        qMaxOrZero (sqlMaxCol (window.map (fun u => u.max_concurrent))) }

/-- The `users` table: `user_id INTEGER PRIMARY KEY,
first_interaction TIMESTAMP DEFAULT CURRENT_TIMESTAMP`, as a map from
user id to first-interaction time. -/
def UserStore := Int → Option Int

/-- The empty `users` table. -/
def freshUsers : UserStore := fun _ => none

/-- The SQL statement of `add_new_user`:
`INSERT OR IGNORE INTO users (user_id) VALUES (?)` — inserts a row
with the current timestamp as default, or does nothing when a row with
that primary key exists. -/
def insertOrIgnoreUser (now : Int) (s : UserStore) (uid : Int) : UserStore :=
  match s uid with
  | some _ => s
  | none => fun u => if u = uid then some now else s u

/-- Python `add_new_user(user_id)` (src/database.py:252-265): runs the
insert-or-ignore and commits; `except Exception` catches ANY error,
logs it and falls through, and the function body has no `return`, so
the caller always receives `None` (here `Unit`) whatever happened. -/
def add_new_user (fault : Bool) (now : Int) (s : UserStore) (user_id : Int) :
    Unit × UserStore :=
  if fault then ((), s)
  else ((), insertOrIgnoreUser now s user_id)

/-- Outcome of handling one `POST /api/webhook` request body
(src/api/webhook.py:31-53): the JSON parse and update processing
succeed within the 8-second deadline; or `asyncio.wait_for` raises
`asyncio.TimeoutError`; or `bot_app.process_update` raises; or
`request.json()` itself raises (malformed payload). -/
inductive ProcessOutcome where
  | success
  | timeoutExpired
  | processingError
  | parseFailure
  deriving DecidableEq, Repr

/-- Exception classes distinguished by the webhook's `except` clauses. -/
inductive WebError where
  | timeoutError
  | otherException
  deriving DecidableEq, Repr

/-- An HTTP response as produced by `Response(status_code=200)`
(status code plus body; FastAPI sends an empty body by default). -/
structure HttpResponse where
  status : Nat
  body : String
  deriving DecidableEq, Repr

/-- The `try` block of the webhook handler: parse the payload, process
the update under `asyncio.wait_for(..., timeout=8.0)`, and on success
return `Response(status_code=200)`; each failure raises the
corresponding exception. -/
def webhookTryBody : ProcessOutcome → Except WebError HttpResponse
  | .success => .ok ⟨200, ""⟩
  | .timeoutExpired => .error .timeoutError
  | .processingError => .error .otherException
  | .parseFailure => .error .otherException

/-- Python `webhook(request)` (src/api/webhook.py:31-53): the `try`
body, with `except asyncio.TimeoutError` and `except Exception` both
logging and returning `Response(status_code=200)`. -/
def webhook (o : ProcessOutcome) : HttpResponse :=
  match webhookTryBody o with
  | .ok r => r
  | .error .timeoutError => ⟨200, ""⟩
  | .error .otherException => ⟨200, ""⟩

/-- Where one thread stands inside
`increment_referral_count`'s critical section (src/database.py:206-213).
The guarded region `with db._lock:` covers the read-modify-write of the
upsert plus the commit; the model splits the upsert statement into its
read (current count of the contended user, `none` when absent) and its
write, the granularity at which a lost update could occur if the lock
were absent. -/
inductive Phase where
  | ready
  | reading
  | writing (tmp : Option Int)
  | wrote
  | committed
  deriving DecidableEq, Repr

/-- Shared state of `n` threads concurrently calling
`increment_referral_count` for one same user: that user's
`ref_count` row, the holder of `db._lock`, and each thread's phase. -/
structure IncState (n : Nat) where
  cnt : Option Int
  lock : Option (Fin n)
  threads : Fin n → Phase

/-- The row the upsert statement writes, given the row it read: `1`
when the row was absent, the read count plus one otherwise. -/
def upsertRow (tmp : Option Int) : Option Int :=
  some (match tmp with | none => 1 | some c => c + 1)

/-- One interleaving step of the `n` threads: acquire `db._lock` when
free; read the contended row while holding the lock; write the upsert
result (`1` when the row was absent, `tmp + 1` otherwise) while
holding the lock; release the lock after the commit. -/
inductive IncStep {n : Nat} : IncState n → IncState n → Prop
  | acquireLock (s : IncState n) (t : Fin n)
      (hready : s.threads t = .ready) (hfree : s.lock = none) :
      IncStep s { s with
          lock := some t,
          threads := Function.update s.threads t .reading }
  | readRow (s : IncState n) (t : Fin n)
      (hphase : s.threads t = .reading) (hheld : s.lock = some t) :
      IncStep s { s with
          threads := Function.update s.threads t (.writing s.cnt) }
  | writeRow (s : IncState n) (t : Fin n) (tmp : Option Int)
      (hphase : s.threads t = .writing tmp) (hheld : s.lock = some t) :
      IncStep s { s with
          cnt := upsertRow tmp,
          threads := Function.update s.threads t .wrote }
  | releaseLock (s : IncState n) (t : Fin n)
      (hphase : s.threads t = .wrote) (hheld : s.lock = some t) :
      IncStep s { s with
          lock := none,
          threads := Function.update s.threads t .committed }

/-- Finitely many interleaving steps. -/
inductive IncSteps {n : Nat} : IncState n → IncState n → Prop
  | refl (s : IncState n) : IncSteps s s
  | tail {s1 s2 s3 : IncState n} :
      IncSteps s1 s2 → IncStep s2 s3 → IncSteps s1 s3

/-- A thread is inside the critical section. -/
def Phase.inCS : Phase → Prop
  | .reading => True
  | .writing _ => True
  | .wrote => True
  | _ => False

/-- A thread whose increment has taken effect on the row. -/
def Phase.applied : Phase → Bool
  | .wrote => true
  | .committed => true
  | _ => false

/-- Number of threads whose increment has taken effect. -/
def appliedCount {n : Nat} (ts : Fin n → Phase) : Int :=
  Finset.sum Finset.univ (fun t => if (ts t).applied then (1 : Int) else 0)

/-- The value the row contributes to `get_referral_count`: the stored
count, or 0 when absent. -/
def rowVal (c : Option Int) : Int := match c with | some v => v | none => 0

/-- Initial state of a one-thread run of the locked increment: no row
for the contended user, lock free, the thread about to enter. -/
def incDemo0 : IncState 1 :=
  { cnt := none, lock := none, threads := fun _ => .ready }

/-- State after the thread acquires `db._lock`. -/
def incD1 : IncState 1 :=
  { cnt := none, lock := some 0,
    threads := Function.update incDemo0.threads 0 .reading }

/-- State after the thread reads the (absent) row. -/
def incD2 : IncState 1 :=
  { cnt := none, lock := some 0,
    threads := Function.update incD1.threads 0 (.writing none) }

/-- State after the thread writes the upsert result. -/
def incD3 : IncState 1 :=
  { cnt := some 1, lock := some 0,
    threads := Function.update incD2.threads 0 .wrote }

/-- State after the thread commits and releases the lock. -/
def incD4 : IncState 1 :=
  { cnt := some 1, lock := none,
    threads := Function.update incD3.threads 0 .committed }

/-- A database state with a single usage sample, used to exercise the
usage-statistics aggregates on concrete data. -/
def demoState : DBState :=
  { initState with usage_stats := [⟨1000, 2, 3⟩] }

end BotDB

namespace BotDB

/-- C1: `increment_referral_count` is an upsert — on a store with no row
for `uid` it inserts a row with `ref_count = 1`, on a store with an
existing count `c` it updates it to exactly `c + 1`; and on a fresh
store, one call of `increment_referral_count 42` makes
`get_referral_count 42` return 1, a second call makes it return 2. -/
theorem increment_referral_count_upsert (uid : Int) (s : ReferralStore) :
    (s uid = none →
      (increment_referral_count false s uid).2 uid = some 1) ∧
    (∀ c : Int, s uid = some c →
      (increment_referral_count false s uid).2 uid = some (c + 1)) ∧
    (get_referral_count false (increment_referral_count false freshStore 42).2 42 =
      .ok 1 ∧
     get_referral_count false
        (increment_referral_count false
          (increment_referral_count false freshStore 42).2 42).2 42 = .ok 2) := by
  refine ⟨?_, ?_, ?_, ?_⟩
  · intro h
    simp [increment_referral_count, upsertReferral, h]
  · intro c h
    simp [increment_referral_count, upsertReferral, h]
  · rfl
  · rfl

/-- Witness for C1: concrete run on the fresh store at user 42 — the
insert branch produces a row with count 1. -/
theorem increment_referral_count_upsert_witness :
    (increment_referral_count false freshStore 42).2 42 = some 1 :=
  (increment_referral_count_upsert 42 freshStore).1 rfl

/-- C4: when the storage operation fails, `increment_referral_count`
returns `false` (it does not raise: the model's return type carries no
exception) and the referral store is unchanged — no row is created and
no count is modified. -/
theorem increment_referral_count_failure (s : ReferralStore) (uid : Int) :
    increment_referral_count true s uid = (false, s) := by
  rfl

/-- C5, counterexample: `get_referral_count` on a never-seen user is NOT
error-free under storage failures — with a faulting read on the fresh
store it propagates the sqlite error instead of returning 0 (the
function body has no exception handler). -/
theorem get_referral_count_fault_raises :
    get_referral_count true freshStore 42 = .error .sqliteError ∧
    get_referral_count true freshStore 42 ≠ .ok 0 := by
  refine ⟨rfl, ?_⟩
  intro h
  simp [get_referral_count, selectRefCount] at h

/-- C5, amended: for a user with no referral record,
`get_referral_count` returns 0 whenever the storage read succeeds; when
the read fails the error propagates as an exception to the caller. -/
theorem get_referral_count_unknown_user (s : ReferralStore) (uid : Int)
    (h : s uid = none) :
    get_referral_count false s uid = .ok 0 ∧
    get_referral_count true s uid = .error .sqliteError := by
  constructor
  · simp [get_referral_count, selectRefCount, h]
  · rfl

/-- Witness for the amended C5 at user 7 on the fresh store. -/
theorem get_referral_count_unknown_user_witness :
    get_referral_count false freshStore 7 = .ok 0 ∧
    get_referral_count true freshStore 7 = .error .sqliteError :=
  get_referral_count_unknown_user freshStore 7 rfl

/-- C6: the webhook handler answers status 200 with an empty body in
every case — success within the deadline, deadline exceeded, processing
exception, and payload parse failure.  No error reaches the caller. -/
theorem webhook_always_acknowledges (o : ProcessOutcome) :
    webhook o = { status := 200, body := "" } := by
  cases o <;> rfl

/-- Shared: running pool events never sets the missing
`_tables_created` attribute (nothing in src/database.py assigns it). -/
lemma runPool_tables_created (ops : List PoolOp) (s : DBState)
    (h : s.tables_created = false) :
    (runPool s ops).tables_created = false := by
  induction ops generalizing s with
  | nil => exact h
  | cons op ops ih =>
    apply ih
    cases op with
    | acq now => simp [poolStep, acquire, log_usage, h]
    | rel => simpa [poolStep, release] using h

/-- Shared: when the `_tables_created` attribute is absent, an acquire
skips `_log_usage` and leaves `usage_stats` untouched. -/
lemma acquire_no_log (now : Int) (s : DBState)
    (h : s.tables_created = false) :
    (acquire now s).usage_stats = s.usage_stats := by
  simp [acquire, h]

/-- C3 fails on the code: in any state reachable by pool events from a
fresh `ReferralDB`, a further entry into `get_connection` writes NO
usage sample at all — the guard `hasattr(self, '_tables_created')` is
always false because no statement ever sets that attribute, so `_log_usage`
is dead code and the sample count stays the same instead of growing
by one. -/
theorem acquire_writes_no_sample (ops : List PoolOp) (now : Int) :
    (acquire now (runPool initState ops)).usage_stats
      = (runPool initState ops).usage_stats ∧
    (acquire now (runPool initState ops)).usage_stats.length
      ≠ (runPool initState ops).usage_stats.length + 1 := by
  have htc : (runPool initState ops).tables_created = false :=
    runPool_tables_created ops initState rfl
  have heq := acquire_no_log now _ htc
  refine ⟨heq, ?_⟩
  rw [heq]
  omega

/-- C8: `cleanup_old_stats` removes exactly the samples older than 24
hours (timestamp below `now - 86400`), retains every sample within the
window, and is idempotent at a fixed current time. -/
theorem cleanup_old_stats_spec (now : Int) (stats : List UsageSample) :
    (∀ u ∈ cleanup_old_stats now stats,
        u ∈ stats ∧ ¬ u.timestamp < now - 86400) ∧
    (∀ u ∈ stats,
        ¬ u.timestamp < now - 86400 → u ∈ cleanup_old_stats now stats) ∧
    cleanup_old_stats now (cleanup_old_stats now stats)
      = cleanup_old_stats now stats := by
  refine ⟨?_, ?_, ?_⟩
  · intro u hu
    simpa [cleanup_old_stats, List.mem_filter] using hu
  · intro u hu hage
    simp [cleanup_old_stats, List.mem_filter, hu, hage]
  · simp [cleanup_old_stats, List.filter_filter]

/-- Witness for C8 at a concrete store: with the clock at 100000, the
sample stamped 50000 is within 24 hours and is retained, while the one
stamped 0 is removed. -/
theorem cleanup_old_stats_spec_witness :
    (⟨50000, 2, 2⟩ : UsageSample) ∈
      cleanup_old_stats 100000 [⟨0, 1, 1⟩, ⟨50000, 2, 2⟩] ∧
    ((⟨0, 1, 1⟩ : UsageSample) ∈
      cleanup_old_stats 100000 [⟨0, 1, 1⟩, ⟨50000, 2, 2⟩] → False) := by
  constructor
  · exact (cleanup_old_stats_spec 100000 [⟨0, 1, 1⟩, ⟨50000, 2, 2⟩]).2.1
      ⟨50000, 2, 2⟩ (by decide) (by decide)
  · intro hmem
    have h := (cleanup_old_stats_spec 100000 [⟨0, 1, 1⟩, ⟨50000, 2, 2⟩]).1
      ⟨0, 1, 1⟩ hmem
    exact absurd h.2 (by decide)

/-- C10: `add_new_user` returns no success indicator (always the single
value of `Unit`, i.e. Python `None`), any storage exception leaves the
table unchanged and is swallowed, a duplicate insert is an ignored
no-op, and the value the caller receives is identical in the success,
duplicate and failure cases, so the outcomes are indistinguishable to
the caller. -/
theorem add_new_user_swallows (fault : Bool) (now : Int)
    (s : UserStore) (uid : Int) :
    (add_new_user fault now s uid).1 = () ∧
    (add_new_user true now s uid).2 = s ∧
    (∀ t : Int, s uid = some t → (add_new_user false now s uid).2 = s) ∧
    (add_new_user true now s uid).1 = (add_new_user false now s uid).1 := by
  refine ⟨rfl, rfl, ?_, rfl⟩
  intro t ht
  simp [add_new_user, insertOrIgnoreUser, ht]

/-- Witness for C10: a concrete store where user 1 is already present —
the duplicate insert leaves the table unchanged. -/
theorem add_new_user_swallows_witness :
    (add_new_user false 9 (insertOrIgnoreUser 5 freshUsers 1) 1).2
      = insertOrIgnoreUser 5 freshUsers 1 :=
  (add_new_user_swallows false 9 (insertOrIgnoreUser 5 freshUsers 1) 1).2.2.1
    5 rfl

/-- Shared: an acquire adds one to `active_connections` whatever the
logging guard does. -/
lemma acquire_active (now : Int) (s : DBState) :
    (acquire now s).active_connections = s.active_connections + 1 := by
  cases h : s.tables_created <;> simp [acquire, log_usage, h]

/-- Shared: an acquire raises `max_concurrent` to the maximum of its
old value and the new `active_connections`. -/
lemma acquire_max (now : Int) (s : DBState) :
    (acquire now s).max_concurrent
      = max s.max_concurrent (s.active_connections + 1) := by
  cases h : s.tables_created <;> simp [acquire, log_usage, h]

/-- Shared: along a trace whose suffix is balanced against `k`
outstanding acquires, the counter stays nonnegative. -/
lemma balanced_nonneg (ops : List PoolOp) (s : DBState) (k : Nat)
    (hact : s.active_connections = (k : Int))
    (hbal : balancedAux k ops = true) :
    0 ≤ (runPool s ops).active_connections := by
  induction ops generalizing s k with
  | nil => simp [runPool, hact]
  | cons op ops ih =>
    cases op with
    | acq now =>
      simp only [balancedAux] at hbal
      refine ih (poolStep s (.acq now)) (k + 1) ?_ hbal
      simp only [poolStep, acquire_active, hact]
      push_cast
      ring
    | rel =>
      simp only [balancedAux, Bool.and_eq_true, decide_eq_true_eq] at hbal
      refine ih (poolStep s .rel) (k - 1) ?_ hbal.2
      have hk := hbal.1
      simp only [poolStep, release, hact]
      omega

/-- Shared: a single pool event never lowers `max_concurrent`. -/
lemma poolStep_max_mono (s : DBState) (op : PoolOp) :
    s.max_concurrent ≤ (poolStep s op).max_concurrent := by
  cases op with
  | acq now =>
    rw [poolStep, acquire_max]
    exact le_max_left _ _
  | rel => exact le_of_eq rfl

/-- C9: over every pool-event trace realisable by `get_connection`
blocks in one process lifetime, `active_connections` stays ≥ 0, and
`max_concurrent` never decreases from any state under any trace. -/
theorem pool_counters_invariant :
    (∀ ops : List PoolOp, wellFormed ops →
        0 ≤ (runPool initState ops).active_connections) ∧
    (∀ (s : DBState) (ops : List PoolOp),
        s.max_concurrent ≤ (runPool s ops).max_concurrent) := by
  constructor
  · intro ops h
    exact balanced_nonneg ops initState 0 rfl h
  · intro s ops
    induction ops generalizing s with
    | nil => exact le_refl _
    | cons op ops ih =>
      exact le_trans (poolStep_max_mono s op) (ih (poolStep s op))

/-- Witness for C9: the trace of one completed `get_connection` block
is well formed and ends with a nonnegative counter. -/
theorem pool_counters_invariant_witness :
    wellFormed [PoolOp.acq 0, PoolOp.rel] ∧
    0 ≤ (runPool initState [PoolOp.acq 0, PoolOp.rel]).active_connections :=
  ⟨by decide, pool_counters_invariant.1 [PoolOp.acq 0, PoolOp.rel] (by decide)⟩

/-- Shared: a left fold of `max` is one of its inputs and bounds all of
them. -/
lemma foldl_max_spec (xs : List Int) (a : Int) :
    (xs.foldl max a = a ∨ xs.foldl max a ∈ xs) ∧
    a ≤ xs.foldl max a ∧
    ∀ x ∈ xs, x ≤ xs.foldl max a := by
  induction xs generalizing a with
  | nil => simp
  | cons y ys ih =>
    obtain ⟨hmem, hle, hall⟩ := ih (max a y)
    simp only [List.foldl_cons]
    refine ⟨?_, ?_, ?_⟩
    · rcases hmem with h | h
      · rcases max_choice a y with hc | hc
        · left; rw [h, hc]
        · right; rw [h, hc]; exact List.mem_cons_self y ys
      · right; exact List.mem_cons_of_mem y h
    · exact le_trans (le_max_left a y) hle
    · intro x hx
      rcases List.mem_cons.mp hx with h | h
      · subst h; exact le_trans (le_max_right a x) hle
      · exact hall x h

/-- Shared: a `some` result of SQL `MAX` is a member of the column. -/
lemma sqlMaxCol_mem (l : List Int) (m : Int) (hm : sqlMaxCol l = some m) :
    m ∈ l := by
  cases l with
  | nil => exact Option.noConfusion hm
  | cons x xs =>
    obtain ⟨hmem, _, _⟩ := foldl_max_spec xs x
    have hmx : m = xs.foldl max x := by
      simpa [sqlMaxCol] using hm.symm
    subst hmx
    rcases hmem with h | h
    · rw [h]; exact List.mem_cons_self x xs
    · exact List.mem_cons_of_mem x h

/-- Shared: a `some` result of SQL `MAX` bounds the whole column. -/
lemma sqlMaxCol_le (l : List Int) (x : Int) (hx : x ∈ l) (m : Int)
    (hm : sqlMaxCol l = some m) : x ≤ m := by
  cases l with
  | nil => exact Option.noConfusion hm
  | cons y ys =>
    obtain ⟨_, hle, hall⟩ := foldl_max_spec ys y
    have hmx : m = ys.foldl max y := by
      simpa [sqlMaxCol] using hm.symm
    subst hmx
    rcases List.mem_cons.mp hx with h | h
    · subst h; exact hle
    · exact hall x h

/-- Shared: SQL `MAX` of a nonempty column is not `NULL`. -/
lemma sqlMaxCol_ne_nil (l : List Int) (h : l ≠ []) :
    ∃ m, sqlMaxCol l = some m := by
  cases l with
  | nil => exact absurd rfl h
  | cons x xs => exact ⟨xs.foldl max x, rfl⟩

/-- Shared: SQL `AVG` of a nonempty column, with the `NULL` default
applied, is the arithmetic mean. -/
lemma qOrZero_sqlAvgCol (l : List Int) (h : l ≠ []) :
    qOrZero (sqlAvgCol l) = (l.map (fun v : Int => (v : ℚ))).sum / l.length := by
  cases l with
  | nil => exact absurd rfl h
  | cons x xs => rfl

/-- Shared: the peak field of a successful `get_usage_stats` call. -/
lemma get_usage_stats_peak (now : Int) (s : DBState) :
    (get_usage_stats false false now s).peak_last_hour
      = qMaxOrZero (sqlMaxCol ((statsWindow now s).map
          (fun u => u.concurrent_connections))) := rfl

/-- Shared: the all-time-max field of a successful `get_usage_stats`
call. -/
lemma get_usage_stats_alltime (now : Int) (s : DBState) :
    (get_usage_stats false false now s).all_time_max
      = qMaxOrZero (sqlMaxCol ((statsWindow now s).map
          (fun u => u.max_concurrent))) := rfl

/-- Shared: the average field of a successful `get_usage_stats` call. -/
lemma get_usage_stats_avg (now : Int) (s : DBState) :
    (get_usage_stats false false now s).avg_last_hour
      = round2 (qOrZero (sqlAvgCol ((statsWindow now s).map
          (fun u => u.concurrent_connections)))) := rfl

/-- C7: when a storage error occurs — while obtaining the connection or
inside the aggregate query — `get_usage_stats` returns the all-zero
dictionary instead of propagating the failure; with no error it
aggregates over exactly the samples of the trailing one-hour window
(`timestamp > now - 3600`): `peak_last_hour` is the maximum concurrent
connections attained there, `all_time_max` the maximum recorded
`max_concurrent` there, `avg_last_hour` the rounded mean there, and an
empty window yields the zero aggregates. -/
theorem get_usage_stats_spec (connFault queryFault : Bool) (now : Int)
    (s : DBState) :
    ((connFault || queryFault) = true →
        get_usage_stats connFault queryFault now s = zeroedStats) ∧
    (∀ u : UsageSample, u ∈ statsWindow now s ↔
        u ∈ s.usage_stats ∧ now - 3600 < u.timestamp) ∧
    (∀ u ∈ statsWindow now s,
        (u.concurrent_connections : ℚ)
            ≤ (get_usage_stats false false now s).peak_last_hour ∧
        (u.max_concurrent : ℚ)
            ≤ (get_usage_stats false false now s).all_time_max) ∧
    (statsWindow now s ≠ [] →
        (∃ u ∈ statsWindow now s,
          (get_usage_stats false false now s).peak_last_hour
            = u.concurrent_connections) ∧
        (∃ u ∈ statsWindow now s,
          (get_usage_stats false false now s).all_time_max
            = u.max_concurrent) ∧
        (get_usage_stats false false now s).avg_last_hour
          = round2 (((statsWindow now s).map
              (fun u => (u.concurrent_connections : ℚ))).sum
                / (statsWindow now s).length)) ∧
    (statsWindow now s = [] →
        get_usage_stats false false now s
          = { zeroedStats with current_connections := s.active_connections }) := by
  refine ⟨?_, ?_, ?_, ?_, ?_⟩
  · intro h
    cases connFault with
    | true => rfl
    | false =>
      cases queryFault with
      | true => rfl
      | false => exact absurd h (by decide)
  · intro u
    simp [statsWindow, List.mem_filter]
  · intro u hu
    constructor
    · have hmem : u.concurrent_connections ∈
          (statsWindow now s).map (fun v => v.concurrent_connections) :=
        List.mem_map_of_mem _ hu
      obtain ⟨m, hm⟩ := sqlMaxCol_ne_nil
        ((statsWindow now s).map (fun v => v.concurrent_connections))
        (fun hnil => List.not_mem_nil _ (hnil ▸ hmem))
      have hb := sqlMaxCol_le _ _ hmem m hm
      rw [get_usage_stats_peak, hm, qMaxOrZero]
      exact_mod_cast hb
    · have hmem : u.max_concurrent ∈
          (statsWindow now s).map (fun v => v.max_concurrent) :=
        List.mem_map_of_mem _ hu
      obtain ⟨m, hm⟩ := sqlMaxCol_ne_nil
        ((statsWindow now s).map (fun v => v.max_concurrent))
        (fun hnil => List.not_mem_nil _ (hnil ▸ hmem))
      have hb := sqlMaxCol_le _ _ hmem m hm
      rw [get_usage_stats_alltime, hm, qMaxOrZero]
      exact_mod_cast hb
  · intro hne
    have hne1 : (statsWindow now s).map
        (fun v => v.concurrent_connections) ≠ [] := by
      simpa using hne
    have hne2 : (statsWindow now s).map
        (fun v => v.max_concurrent) ≠ [] := by
      simpa using hne
    obtain ⟨m1, hm1⟩ := sqlMaxCol_ne_nil _ hne1
    obtain ⟨m2, hm2⟩ := sqlMaxCol_ne_nil _ hne2
    refine ⟨?_, ?_, ?_⟩
    · obtain ⟨u, hu, hval⟩ := List.mem_map.mp (sqlMaxCol_mem _ _ hm1)
      refine ⟨u, hu, ?_⟩
      rw [get_usage_stats_peak, hm1, qMaxOrZero, hval]
    · obtain ⟨u, hu, hval⟩ := List.mem_map.mp (sqlMaxCol_mem _ _ hm2)
      refine ⟨u, hu, ?_⟩
      rw [get_usage_stats_alltime, hm2, qMaxOrZero, hval]
    · rw [get_usage_stats_avg, qOrZero_sqlAvgCol _ hne1,
          List.map_map, List.length_map]
      rfl
  · intro hnil
    have h1 := get_usage_stats_peak now s
    have h2 := get_usage_stats_alltime now s
    have h3 := get_usage_stats_avg now s
    have h4 : (get_usage_stats false false now s).current_connections
        = s.active_connections := rfl
    rw [hnil] at h1 h2 h3
    have havg : round2 (qOrZero (sqlAvgCol (([] : List UsageSample).map
        (fun u => u.concurrent_connections)))) = 0 := by
      norm_num [sqlAvgCol, qOrZero, round2]
    cases hgs : get_usage_stats false false now s
    simp only [hgs] at h1 h2 h3 h4
    simp only [zeroedStats]
    rw [h1, h2, h3, h4, havg]
    rfl

/-- Shared: invariant of the locked-increment system for `n` threads
and initial row `c0`: only the lock holder is inside the critical
section, the row value counts the increments applied so far, and a
thread that has read the row still sees the current row (no other
thread can have written in between, because it would need the lock). -/
def IncInv {n : Nat} (c0 : Option Int) (s : IncState n) : Prop :=
  (∀ t : Fin n, (s.threads t).inCS → s.lock = some t) ∧
  rowVal s.cnt = rowVal c0 + appliedCount s.threads ∧
  (∀ (t : Fin n) (tmp : Option Int), s.threads t = .writing tmp → tmp = s.cnt)

/-- Shared: how `appliedCount` changes when one thread changes phase. -/
lemma appliedCount_update {n : Nat} (ts : Fin n → Phase) (t : Fin n)
    (p : Phase) :
    appliedCount (Function.update ts t p)
      = appliedCount ts + (if p.applied then 1 else 0)
        - (if (ts t).applied then 1 else 0) := by
  have hfun : (fun u => if (Function.update ts t p u).applied then (1 : Int) else 0)
      = Function.update (fun u => if (ts u).applied then (1 : Int) else 0) t
          (if p.applied then (1 : Int) else 0) := by
    funext u
    by_cases h : u = t
    · subst h
      rw [Function.update_same, Function.update_same]
    · rw [Function.update_noteq h, Function.update_noteq h]
  unfold appliedCount
  rw [hfun, Finset.sum_update_of_mem (Finset.mem_univ t),
      Finset.sum_eq_sum_diff_singleton_add (Finset.mem_univ t)
        (fun u => if (ts u).applied then (1 : Int) else 0)]
  ring

/-- Shared: the upsert writes the old row value plus one. -/
lemma rowVal_upsert (tmp : Option Int) :
    rowVal (upsertRow tmp) = rowVal tmp + 1 := by
  cases tmp <;> simp [rowVal, upsertRow]

/-- Shared: the invariant is preserved by every interleaving step. -/
lemma IncInv_step {n : Nat} {c0 : Option Int} {s s' : IncState n}
    (hstep : IncStep s s') (hinv : IncInv c0 s) : IncInv c0 s' := by
  obtain ⟨hcs, hcount, hread⟩ := hinv
  cases hstep with
  | acquireLock t hready hfree =>
    refine ⟨?_, ?_, ?_⟩
    · intro t' h
      dsimp only at h ⊢
      by_cases het : t' = t
      · subst het; rfl
      · rw [Function.update_noteq het] at h
        exact absurd (hfree ▸ hcs t' h) (by simp)
    · dsimp only
      rw [appliedCount_update, hready]
      simpa [Phase.applied] using hcount
    · intro t' tmp h
      dsimp only at h ⊢
      by_cases het : t' = t
      · subst het; rw [Function.update_same] at h
        exact Phase.noConfusion h
      · rw [Function.update_noteq het] at h
        exact hread t' tmp h
  | readRow t hphase hheld =>
    refine ⟨?_, ?_, ?_⟩
    · intro t' h
      dsimp only at h ⊢
      by_cases het : t' = t
      · subst het; exact hheld
      · rw [Function.update_noteq het] at h
        exact hcs t' h
    · dsimp only
      rw [appliedCount_update, hphase]
      simpa [Phase.applied] using hcount
    · intro t' tmp h
      dsimp only at h ⊢
      by_cases het : t' = t
      · subst het; rw [Function.update_same] at h
        injection h with h'
        exact h'.symm
      · rw [Function.update_noteq het] at h
        exact hread t' tmp h
  | writeRow t tmp hphase hheld =>
    have htmp : tmp = s.cnt := hread t tmp hphase
    refine ⟨?_, ?_, ?_⟩
    · intro t' h
      dsimp only at h ⊢
      by_cases het : t' = t
      · subst het; exact hheld
      · rw [Function.update_noteq het] at h
        exact hcs t' h
    · dsimp only
      rw [appliedCount_update, hphase, rowVal_upsert, htmp, hcount]
      simp [Phase.applied]
      ring
    · intro t' tmp' h
      dsimp only at h ⊢
      by_cases het : t' = t
      · subst het; rw [Function.update_same] at h
        exact Phase.noConfusion h
      · rw [Function.update_noteq het] at h
        have h1 : s.lock = some t' := hcs t' (by rw [h]; trivial)
        rw [hheld] at h1
        injection h1 with h2
        exact absurd h2.symm het
  | releaseLock t hphase hheld =>
    refine ⟨?_, ?_, ?_⟩
    · intro t' h
      dsimp only at h ⊢
      by_cases het : t' = t
      · subst het; rw [Function.update_same] at h
        exact h.elim
      · rw [Function.update_noteq het] at h
        have h1 : s.lock = some t' := hcs t' h
        rw [hheld] at h1
        injection h1 with h2
        exact absurd h2.symm het
    · dsimp only
      rw [appliedCount_update, hphase]
      simpa [Phase.applied] using hcount
    · intro t' tmp' h
      dsimp only at h ⊢
      by_cases het : t' = t
      · subst het; rw [Function.update_same] at h
        exact Phase.noConfusion h
      · rw [Function.update_noteq het] at h
        have h1 : s.lock = some t' := hcs t' (by rw [h]; trivial)
        rw [hheld] at h1
        injection h1 with h2
        exact absurd h2.symm het

/-- Shared: the invariant is preserved along any finite execution. -/
lemma IncInv_steps {n : Nat} {c0 : Option Int} {s s' : IncState n}
    (hsteps : IncSteps s s') (hinv : IncInv c0 s) : IncInv c0 s' := by
  induction hsteps with
  | refl => exact hinv
  | tail h1 h2 ih => exact IncInv_step h2 ih

/-- Shared: the invariant holds initially: every thread ready, lock
free, row untouched. -/
lemma IncInv_init {n : Nat} (s : IncState n)
    (hready : ∀ t, s.threads t = .ready) (_hfree : s.lock = none) :
    IncInv s.cnt s := by
  refine ⟨?_, ?_, ?_⟩
  · intro t h
    rw [hready t] at h
    exact h.elim
  · have hz : appliedCount s.threads = 0 := by
      unfold appliedCount
      refine Finset.sum_eq_zero ?_
      intro t _
      rw [hready t]
      rfl
    rw [hz]
    ring
  · intro t tmp h
    rw [hready t] at h
    exact Phase.noConfusion h

/-- Shared: when every thread has committed, the applied count is the
number of threads. -/
lemma appliedCount_all_committed {n : Nat} (ts : Fin n → Phase)
    (h : ∀ t, ts t = .committed) : appliedCount ts = (n : Int) := by
  unfold appliedCount
  have hone : ∀ t ∈ Finset.univ,
      (if (ts t).applied then (1 : Int) else 0) = 1 := by
    intro t _
    rw [h t]
    rfl
  rw [Finset.sum_congr rfl hone]
  simp

/-- C2: for every number `n` of threads concurrently running the locked
increment of `increment_referral_count` on the same user, starting with
all threads ready and the lock free, every complete interleaved
execution in which all `n` threads finish (all report success) ends
with the user's count equal to the initial count plus `n`: the
mutual-exclusion lock serializes the read-modify-write so no increment
is lost. -/
theorem concurrent_increments_serialized {n : Nat} (s0 sf : IncState n)
    (hready : ∀ t, s0.threads t = .ready) (hfree : s0.lock = none)
    (hsteps : IncSteps s0 sf) (hdone : ∀ t, sf.threads t = .committed) :
    rowVal sf.cnt = rowVal s0.cnt + (n : Int) := by
  have hinv : IncInv s0.cnt sf :=
    IncInv_steps hsteps (IncInv_init s0 hready hfree)
  rw [hinv.2.1, appliedCount_all_committed sf.threads hdone]

/-- Shared: a one-thread execution of the locked increment from the
fresh state, step by step. -/
lemma incDemo_steps : IncSteps incDemo0 incD4 := by
  have h1 : IncStep incDemo0 incD1 :=
    IncStep.acquireLock incDemo0 0 rfl rfl
  have h2 : IncStep incD1 incD2 :=
    IncStep.readRow incD1 0 (by simp [incD1]) rfl
  have h3 : IncStep incD2 incD3 :=
    IncStep.writeRow incD2 0 none (by simp [incD2]) rfl
  have h4 : IncStep incD3 incD4 :=
    IncStep.releaseLock incD3 0 (by simp [incD3]) rfl
  exact IncSteps.tail (IncSteps.tail (IncSteps.tail
    (IncSteps.tail (IncSteps.refl incDemo0) h1) h2) h3) h4

/-- Shared: at the end of the one-thread demo run the single thread has
committed. -/
lemma incD4_threads (t : Fin 1) : incD4.threads t = .committed := by
  have h0 : t = 0 := Subsingleton.elim t 0
  rw [h0]
  simp [incD4]

/-- Witness for C2: the concrete one-thread execution — acquire, read,
write, commit-and-release — ends with the contended user's count one
above its initial value. -/
theorem concurrent_increments_serialized_witness :
    rowVal incD4.cnt = rowVal incDemo0.cnt + ((1 : Nat) : Int) :=
  concurrent_increments_serialized incDemo0 incD4
    (fun _ => rfl) rfl incDemo_steps incD4_threads

/-- Witness for C7: on the concrete state with one in-window sample
(timestamp 1000, 2 concurrent, high-water-mark 3) and the clock at
4000, the sample is in the window, it bounds the reported peak, and a
faulting query yields the all-zero dictionary. -/
theorem get_usage_stats_spec_witness :
    (2 : ℚ) ≤ (get_usage_stats false false 4000 demoState).peak_last_hour ∧
    get_usage_stats false true 4000 demoState = zeroedStats := by
  constructor
  · exact ((get_usage_stats_spec false false 4000 demoState).2.2.1
      ⟨1000, 2, 3⟩ (by decide)).1
  · exact (get_usage_stats_spec false true 4000 demoState).1 (by decide)

end BotDB
